import Mathlib

/-!
Verification of initiative.sh core components against their specification.

The development shallowly embeds the Rust source:

* `src/core/src/world/field.rs` — `Field<T>`, an optional value with a
  locked/unlocked provenance bit;
* `src/core/src/storage/repository.rs` — the `Repository` with its bounded
  `recent` buffer (a `VecDeque<Thing>`), uuid-keyed `cache`, and the
  `save_thing_by_name` operation;
* `src/core/src/app/command/alias.rs` — `CommandAlias` with term-keyed
  equality/hashing and the alias-set swap/merge rule of `Runnable::run`;
* `src/core/src/app/command/tutorial.rs` — the `TutorialCommand` state
  machine.

Rust strings are embedded as Lean `String`; string scraping helpers from the
tutorial are re-implemented over `List Char` so that all definitions reduce
in the kernel.  Rust byte lengths coincide with character counts on the
ASCII data exercised here.
-/

set_option maxRecDepth 40000

namespace Initiative

/-! ## String helpers (embedding of the Rust `str` operations used) -/

/-- Embedding of Rust `str::len` / `String::len` (byte length; equals the
character count on the ASCII strings this code manipulates). -/
def strLen (s : String) : Nat := s.toList.length

/-- Embedding of Rust `str::starts_with` for a string pattern. -/
def strStartsWith (s pat : String) : Bool :=
  s.toList.take pat.toList.length == pat.toList

/-- Embedding of Rust `str::ends_with` for a string pattern. -/
def strEndsWith (s pat : String) : Bool :=
  s.toList.reverse.take pat.toList.length == pat.toList.reverse

/-- Embedding of Rust `str::to_lowercase` (ASCII-adequate). -/
def strToLower (s : String) : String :=
  (s.toList.map Char.toLower).asString

/-- Splits a character list at newline characters, keeping empty segments. -/
def splitLinesAux : List Char → List Char → List (List Char)
  | [], acc => [acc.reverse]
  | c :: cs, acc =>
    if c == '\n' then acc.reverse :: splitLinesAux cs [] else splitLinesAux cs (c :: acc)

/-- Embedding of Rust `str::lines`: splits at `'\n'`, and a trailing newline
does not produce a final empty line (`"".lines()` is empty). -/
def rustLines (s : String) : List String :=
  let parts := splitLinesAux s.toList []
  (if parts.getLast? = some [] then parts.dropLast else parts).map List.asString

/-- Embedding of Rust `trim_start_matches(&[' ', '#'][..])`. -/
def trimStartSpaceHash (s : String) : String :=
  (s.toList.dropWhile (fun c => c == ' ' || c == '#')).asString

/-- The backtick character (written via its code point). -/
def tickChar : Char := Char.ofNat 96

/-- Embedding of the scrape in `TutorialCommand::run` (NpcOther branch):
`if let (Some(a), Some(b)) = (s.find('\x60'), s.rfind('\x60')) then
s.get(a + 1..b)` — the text strictly between the first and the last
backtick of `s`, or `none` when the range is invalid. -/
def betweenTicks (s : String) : Option String :=
  let cs := s.toList
  match cs.findIdx? (fun c => c == tickChar),
        cs.reverse.findIdx? (fun c => c == tickChar) with
  | some a, some rb =>
    let b := cs.length - 1 - rb
    if a + 1 ≤ b then some (((cs.drop (a + 1)).take (b - (a + 1))).asString) else none
  | _, _ => none

/-! ## `Field<T>`  (src/core/src/world/field.rs) -/

/-- Embedding of `Field<T>`: `{ is_locked: bool, value: Option<T> }`. -/
structure Field (α : Type) where
  is_locked : Bool
  value : Option α
  deriving Repr, DecidableEq

namespace Field

/-- `Field::new` — locked, holding a value. -/
def new (v : α) : Field α := ⟨true, some v⟩

/-- `Field::new_generated` — unlocked, holding a value. -/
def new_generated (v : α) : Field α := ⟨false, some v⟩

/-- `Field::default` — unlocked and empty. -/
def default : Field α := ⟨false, none⟩

/-- `Field::is_unlocked`. -/
def is_unlocked (f : Field α) : Bool := !f.is_locked

/-- `Field::replace_with`: replaces the value through `f` only when the
field is unlocked; a locked field is left untouched. -/
def replace_with (f : Field α) (g : Option α → α) : Field α :=
  if f.is_unlocked then { f with value := some (g f.value) } else f

/-- `Field::replace`, defined via `replace_with` as in the source. -/
def replace (f : Field α) (v : α) : Field α :=
  f.replace_with (fun _ => v)

/-- `Field::clear`: empties the value only when the field is unlocked. -/
def clear (f : Field α) : Field α :=
  if f.is_unlocked then { f with value := none } else f

end Field

/-- One mutating call on a `Field<T>`: `replace`, `replace_with` or `clear`. -/
inductive FieldOp (α : Type) where
  | replace (v : α)
  | replaceWith (g : Option α → α)
  | clear

/-- Applies one `FieldOp`. -/
def applyFieldOp (f : Field α) : FieldOp α → Field α
  | .replace v => f.replace v
  | .replaceWith g => f.replace_with g
  | .clear => f.clear

/-- Applies a sequence of `FieldOp`s, left to right. -/
def applyFieldOps (f : Field α) (ops : List (FieldOp α)) : Field α :=
  ops.foldl applyFieldOp f

/-! ## `Repository`  (src/core/src/storage/repository.rs) -/

/-- Uuids are embedded as natural numbers; `Uuid::new_v4()` becomes an
explicit `freshUuid` input of the operations that call it. -/
abbrev Uuid := Nat

/-- Modelled from the spec: the `Thing` entity type (its defining module
`src/core/src/world/mod.rs` is not among the provided sources; only its
uses in `repository.rs` are).  Per the spec a `Thing` is a generated entity
whose attributes are `Field`s and which has a uuid only once persisted.
The repository reads only the name attribute, so the remaining attributes
are collapsed into an opaque `payload`. -/
structure Thing where
  uuid : Option Uuid
  name : Field String
  payload : Nat
  deriving Repr, DecidableEq

/-- `thing.set_uuid(u)`. -/
def Thing.setUuid (t : Thing) (u : Uuid) : Thing := { t with uuid := some u }

/-- The `Display` of a `Thing`'s name field (empty when the field is
unset), as used in the repository's messages. -/
def Thing.nameText (t : Thing) : String := t.name.value.getD ""

/-- The closure `|s| s.to_lowercase() == lowercase_name` applied through
`t.name().value().map_or(false, ...)`. -/
def nameMatches (lname : String) (t : Thing) : Bool :=
  match t.name.value with
  | some s => strToLower s == lname
  | none => false

/-- `RECENT_MAX_LEN`. -/
def RECENT_MAX_LEN : Nat := 100

/-- Embedding of `Repository`: `cache` is the `HashMap<Uuid, Thing>`
(association list with unique keys), `recent` the contents of the
`VecDeque<Thing>` front-first.  The data store, its enabled flag and the
world clock take no part in the claims below; the data store's
`save_thing` outcome enters `saveThingByName` as the `storeOk` input. -/
structure Repository where
  cache : List (Uuid × Thing)
  recent : List Thing
  deriving Repr, DecidableEq

/-- The `while self.recent.len() >= RECENT_MAX_LEN { self.recent.pop_front(); }`
loop of `Repository::push_recent`. -/
def dropToCap : List Thing → List Thing
  | [] => []
  | t :: ts => if (t :: ts).length ≥ RECENT_MAX_LEN then dropToCap ts else t :: ts

/-- `Repository::push_recent` at the level of the `recent` contents:
evict from the front down to capacity, then append at the back. -/
def pushRecentList (recent : List Thing) (t : Thing) : List Thing :=
  dropToCap recent ++ [t]

/-- `Repository::push_recent`. -/
def Repository.pushRecent (r : Repository) (t : Thing) : Repository :=
  { r with recent := pushRecentList r.recent t }

/-- `Repository::take_recent`: removes and returns the first element of
`recent` satisfying the predicate, also returning the remaining buffer. -/
def takeRecent (p : Thing → Bool) : List Thing → Option Thing × List Thing
  | [] => (none, [])
  | t :: ts =>
    if p t then (some t, ts)
    else
      let r := takeRecent p ts
      (r.1, t :: r.2)

/-- `HashMap::insert`: replaces the value under an existing key, otherwise
adds the binding. -/
def cacheInsert (u : Uuid) (t : Thing) : List (Uuid × Thing) → List (Uuid × Thing)
  | [] => [(u, t)]
  | (k, v) :: rest => if k == u then (u, t) :: rest else (k, v) :: cacheInsert u t rest

/-- `Result::is_ok`. -/
def exceptIsOk : Except String String → Bool
  | .ok _ => true
  | .error _ => false

/-- Embedding of `Repository::save_thing_by_name`.  `storeOk` is the
outcome of the data store's `save_thing` call; `freshUuid` the value drawn
by `Uuid::new_v4()`. -/
def saveThingByName (storeOk : Bool) (freshUuid : Uuid) (r : Repository) (name : String) :
    Except String String × Repository :=
  let lname := strToLower name
  match takeRecent (nameMatches lname) r.recent with
  | (some thing, rest) =>
    let thing := thing.setUuid freshUuid
    if storeOk then
      (Except.ok (thing.nameText ++ " was successfully saved."),
        { r with recent := rest, cache := cacheInsert freshUuid thing r.cache })
    else
      (Except.error ("Couldn't save `" ++ thing.nameText ++ "`"),
        { r with recent := pushRecentList rest thing })
  | (none, _) =>
    if r.cache.any (fun kv => nameMatches lname kv.2) then
      (Except.error ("`" ++ name ++ "` has already been saved to your `journal`"), r)
    else
      (Except.error ("No matches for \"" ++ name ++ "\""), r)

/-- A recent, unsaved entity named Alice. -/
def thingA : Thing := { uuid := none, name := ⟨false, some "Alice"⟩, payload := 1 }

/-- A recent, unsaved entity named Bob. -/
def thingB : Thing := { uuid := none, name := ⟨false, some "Bob"⟩, payload := 2 }

/-- A recent, unsaved entity named Carol. -/
def thingC : Thing := { uuid := none, name := ⟨false, some "Carol"⟩, payload := 3 }

/-- A persisted entity, also named Carol, living in the cache. -/
def thingCsaved : Thing := { uuid := some 1, name := ⟨false, some "Carol"⟩, payload := 4 }

/-- A persisted entity named Dave, living in the cache. -/
def thingD : Thing := { uuid := some 2, name := ⟨false, some "Dave"⟩, payload := 5 }

/-- A repository whose recent buffer holds Alice then Bob. -/
def repoAB : Repository := { cache := [], recent := [thingA, thingB] }

/-- A repository holding a Carol in the cache and another Carol in recent. -/
def repoBoth : Repository := { cache := [(1, thingCsaved)], recent := [thingC] }

/-- A repository holding only the persisted Dave. -/
def repoD : Repository := { cache := [(2, thingD)], recent := [] }

/-- The empty repository. -/
def repoEmpty : Repository := { cache := [], recent := [] }

/-- A concrete thing used by witnesses: payload `i`, unsaved, unnamed. -/
def mkThing (i : Nat) : Thing := { uuid := none, name := ⟨false, none⟩, payload := i }

/-- A push history of `n` distinct concrete things. -/
def mkThings (n : Nat) : List Thing := (List.range n).map mkThing

/-! ## `CommandAlias`  (src/core/src/app/command/alias.rs) -/

/-- Embedding of the `CommandAlias` enum as defined in the provided
`alias.rs`: a single `Literal` variant.  The wrapped boxed `Command` is an
arbitrary type parameter `C`; the alias code never inspects it. -/
inductive CommandAlias (C : Type) where
  | literal (term : String) (summary : String) (command : C)
  deriving Repr, DecidableEq

/-- The `term` of an alias. -/
def CommandAlias.termOf : CommandAlias C → String
  | .literal term _ _ => term

/-- `impl PartialEq for CommandAlias`: equality compares terms only. -/
def aliasEq (a b : CommandAlias C) : Bool := a.termOf == b.termOf

/-- `impl Hash for CommandAlias`: only the term is hashed. -/
def aliasHash (a : CommandAlias C) : UInt64 := hash a.termOf

/-- `HashSet::contains` over the alias-set embedding (a list of members,
membership decided by the term-only `PartialEq`). -/
def aliasContains (s : List (CommandAlias C)) (a : CommandAlias C) : Bool :=
  s.any (fun b => aliasEq b a)

/-- `HashSet::insert`: a no-op when an equal (same-term) member already
exists — the existing member is kept. -/
def aliasInsert (s : List (CommandAlias C)) (a : CommandAlias C) :
    List (CommandAlias C) :=
  if aliasContains s a then s else s ++ [a]

/-- The `HashSet` representation invariant: no two members share a term. -/
def nodupTerms (s : List (CommandAlias C)) : Prop :=
  (s.map CommandAlias.termOf).Nodup

/-- Embedding of `CommandAlias::run` (Literal arm) restricted to its effect
on `app_meta.command_aliases`.  `cmdRun` is the wrapped command's effect on
the alias set it is handed; `mem::take` hands it the empty set.  Afterwards
the original set is restored verbatim when the command registered nothing;
otherwise the original members are drained into the new set, each inserted
only when no member with its term is already present. -/
def runLiteralAliasSet (cmdRun : List (CommandAlias C) → List (CommandAlias C))
    (aliases : List (CommandAlias C)) : List (CommandAlias C) :=
  let temp := aliases
  let after := cmdRun []
  if after.isEmpty then temp
  else temp.foldl (fun acc a => if aliasContains acc a then acc else acc ++ [a]) after

/-- Concrete alias set for the C5 witness. -/
def wCurrent : List (CommandAlias Nat) :=
  [.literal "a" "old a" 0, .literal "b" "old b" 1]

/-- Concrete fresh aliases registered by the C5 witness's wrapped command. -/
def wFresh : List (CommandAlias Nat) :=
  [.literal "b" "new b" 2, .literal "c" "new c" 3]

/-- The C5 witness's wrapped-command effect: always registers `wFresh`. -/
def wCmdRun : List (CommandAlias Nat) → List (CommandAlias Nat) := fun _ => wFresh

/-- Concrete aliases for the C9 witness: same term, different payloads. -/
def wAliasA : CommandAlias Nat := .literal "about" "first summary" 0

/-- Second C9 witness alias, sharing `wAliasA`'s term. -/
def wAliasB : CommandAlias Nat := .literal "about" "second summary" 1

/-- Concrete alias set for the C9 witness. -/
def wSetC9 : List (CommandAlias Nat) := [.literal "other" "other" 2]

/-! ## The `VecDeque` ring layout behind `Repository::recent()`  (C10) -/

/-- A ring-buffer view of the `recent` `VecDeque<Thing>`: a backing buffer
of `cap` slots, the front element living at slot `head`, and `items` the
contents front-first.  A deque that has held 100 elements has grown its
buffer to 128 slots (power-of-two growth); pushes and front-pops then move
`head` around the ring without reallocating while the length stays below
`cap`. -/
structure RingDeque where
  cap : Nat
  head : Nat
  items : List Thing
  deriving Repr, DecidableEq

/-- `VecDeque::pop_front`: drops the front element and advances `head`
one slot around the ring. -/
def ringPopFront (b : RingDeque) : RingDeque :=
  match b.items with
  | [] => b
  | _ :: rest => { b with head := (b.head + 1) % b.cap, items := rest }

/-- `VecDeque::push_back` below capacity: appends; `head` is unmoved. -/
def ringPushBack (b : RingDeque) (t : Thing) : RingDeque :=
  { b with items := b.items ++ [t] }

/-- The `while self.recent.len() >= RECENT_MAX_LEN { pop_front }` loop of
`push_recent` over the ring view, with the length as explicit fuel (the
loop pops at most `len` times). -/
def ringDropAux : Nat → RingDeque → RingDeque
  | 0, b => b
  | n + 1, b =>
    if b.items.length ≥ RECENT_MAX_LEN then ringDropAux n (ringPopFront b) else b

/-- `push_recent`'s eviction loop over the ring view. -/
def ringDropToCap (b : RingDeque) : RingDeque := ringDropAux b.items.length b

/-- `Repository::push_recent` over the ring view. -/
def ringPushRecent (b : RingDeque) (t : Thing) : RingDeque :=
  ringPushBack (ringDropToCap b) t

/-- `self.recent.as_slices().0`, the body of `Repository::recent()`: the
contiguous run from slot `head` to the end of the backing buffer, i.e. the
first `cap - head` elements of the contents; the rest of the contents has
wrapped to the start of the buffer and is in `as_slices().1`. -/
def ringRecentSlice (b : RingDeque) : List Thing :=
  b.items.take (b.cap - b.head)

/-- An empty deque whose backing buffer has grown to 128 slots. -/
def ringEmpty128 : RingDeque := { cap := 128, head := 0, items := [] }

/-! ## `TutorialCommand`  (src/core/src/app/command/tutorial.rs) -/

/-- Injection used to decide equality of `Except` values. -/
def exceptToSum : Except ε α → Sum ε α
  | .error e => .inl e
  | .ok a => .inr a

instance [DecidableEq ε] [DecidableEq α] : DecidableEq (Except ε α) := fun a b =>
  decidable_of_iff (exceptToSum a = exceptToSum b)
    (by cases a <;> cases b <;> simp [exceptToSum])

/-- Modelled from the spec: the NPC grammatical `Gender` (the npc module is
not among the provided sources); the tutorial merely stores and forwards
the value it reads from the generated NPC. -/
inductive Gender where
  | feminine
  | masculine
  | trans
  | neutral
  deriving Repr, DecidableEq

/-- Embedding of the `TutorialCommand` enum: one variant per lesson
checkpoint, carrying the captured inn name, NPC name and gender exactly as
in the source. -/
inductive TutorialCommand where
  | introduction
  | inn
  | save
  | npc (inn_name : String)
  | npcOther (inn_name : String)
  | saveByName (inn_name : String) (npc_gender : Gender) (npc_name : String)
      (other_npc_name : String)
  | journal (inn_name : String) (npc_gender : Gender) (npc_name : String)
  | loadByName (inn_name : String) (npc_gender : Gender) (npc_name : String)
  | spell (inn_name : String) (npc_gender : Gender) (npc_name : String)
  | weapons (inn_name : String) (npc_gender : Gender) (npc_name : String)
  | roll (inn_name : String) (npc_gender : Gender) (npc_name : String)
  | delete (npc_gender : Gender) (npc_name : String)
  | adjustTime (npc_gender : Gender) (npc_name : String)
  | time
  | conclusion
  deriving Repr, DecidableEq

/-- Stand-ins for the lesson files under `data/tutorial/` (data shipped
outside the provided sources).  Each checkpoint's text is a distinct
marker with the interpolated captured values appended, preserving which
state fields flow into which lesson. -/
def lessonMd : TutorialCommand → String
  | .introduction => ""
  | .inn => "00-intro.md"
  | .save => "01-inn.md"
  | .npc inn_name => "02-save.md " ++ inn_name
  | .npcOther _ => "03-npc.md"
  | .saveByName _ _ npc_name other_npc_name =>
    "04-npc-other.md " ++ npc_name ++ " " ++ other_npc_name
  | .journal inn_name _ npc_name => "05-save-by-name.md " ++ inn_name ++ " " ++ npc_name
  | .loadByName _ _ _ => "06-journal.md"
  | .spell _ _ npc_name => "07-load-by-name.md " ++ npc_name
  | .weapons _ _ npc_name => "08-spell.md " ++ npc_name
  | .roll inn_name _ npc_name => "09-weapons.md " ++ inn_name ++ " " ++ npc_name
  | .delete _ npc_name => "10-roll.md " ++ npc_name
  | .adjustTime _ npc_name => "11-delete.md " ++ npc_name
  | .time => "12-adjust-time.md"
  | .conclusion => "13-time.md"

/-- Stand-in for the fixed `data/tutorial/xx-still-active.md` text. -/
def stillActiveMd : String := "xx-still-active.md"

/-- Stand-in for the fixed `data/tutorial/99-conclusion.md` text. -/
def conclusionMd : String := "99-conclusion.md"

/-- `String::is_empty` over the char-list embedding. -/
def strIsEmpty (s : String) : Bool := s.toList.isEmpty

/-- Embedding of `TutorialCommand::output`: keeps the Ok/Err character of
the wrapped command output, appends a `\n\n#` section break beneath a
non-empty wrapped output, then the lesson text for `self`. -/
def TutorialCommand.output (self : TutorialCommand)
    (commandOutput : Option (Except String String)) : Except String String :=
  let is_ok : Bool :=
    match commandOutput with
    | some (.error _) => false
    | _ => true
  let base : String :=
    match commandOutput with
    | none => ""
    | some (.ok s) => s
    | some (.error e) => e
  let out := if strIsEmpty base then base else base ++ "\n\n#"
  let out := out ++ lessonMd self
  if is_ok then .ok out else .error out

/-- The inn-name scrape of the Save branch: the first output line with
leading spaces and hashes removed.  (The Rust `lines().next().unwrap()`
panics on empty output, which no claim exercises; the model reads the
empty string there.) -/
def scrapeInnName (output : String) : String :=
  trimStartSpaceHash ((rustLines output).headD "")

/-- The NpcOther branch's other-npc scrape: the trimmed first line. -/
def scrapeOtherNpcName (output : String) : Option String :=
  ((rustLines output).head?).map trimStartSpaceHash

/-- The NpcOther branch's npc-name scrape: the text between the first and
last backtick of the first line starting with `~1~ `. -/
def scrapeNpcName (output : String) : Option String :=
  match (rustLines output).find? (fun l => strStartsWith l "~1~ ") with
  | some l => betweenTicks l
  | none => none

/-- The environment a tutorial step runs in: `runCmd input` is the result
of `Command::parse_input_irrefutable(input).run(input, app_meta)` (the
underlying domain command), and `genderOf name` the gender lookup over
`app_meta.recent()` performed by the NpcOther branch. -/
structure TutorialOracle where
  runCmd : String → Except String String
  genderOf : String → Option Gender

/-- The observable outcome of one `TutorialCommand::run` call: the textual
result, the continuation state re-registered through a strict-wildcard
alias (`none` exactly when no such alias is installed), whether the
underlying domain command was executed, and whether the Introduction's
literal "next" alias was inserted. -/
structure TutorialStep where
  result : Except String String
  next : Option TutorialCommand
  ranUnderlying : Bool
  insertedNextLiteral : Bool
  deriving Repr, DecidableEq

/-- The catch-all arm of `TutorialCommand::run`: the fixed still-active
text, the same state re-registered, the underlying command not executed. -/
def stillActiveStep (s : TutorialCommand) : TutorialStep :=
  { result := .ok stillActiveMd, next := some s,
    ranUnderlying := false, insertedNextLiteral := false }

/-- The acceptance predicate of each tutorial state: exactly the pattern
guards of `TutorialCommand::run` (the Introduction arm has no guard and
accepts any input). -/
def acceptsInput : TutorialCommand → String → Bool
  | .introduction, _ => true
  | .inn, input => input == "next"
  | .save, input => input == "inn"
  | .npc inn_name, input =>
    input == "save" ||
      (strStartsWith input "save " && strEndsWith input inn_name &&
        strLen input == strLen "save " + strLen inn_name)
  | .npcOther _, input => input == "npc"
  | .saveByName _ _ npc_name _, input =>
    input == "1" || input == npc_name ||
      (strStartsWith input "load " && strEndsWith input npc_name &&
        strLen input == strLen "load " + strLen npc_name)
  | .journal _ _ npc_name, input =>
    input == "save" ||
      (strStartsWith input "save " && strEndsWith input npc_name &&
        strLen input == strLen "save " + strLen npc_name)
  | .loadByName _ _ _, input => input == "journal"
  | .spell _ _ npc_name, input =>
    input == npc_name ||
      (strStartsWith input "load " && strEndsWith input npc_name &&
        strLen input == strLen "load " + strLen npc_name)
  | .weapons _ _ _, input => input == "Fireball"
  | .roll _ _ _, input => input == "weapons"
  | .delete _ _, input => input == "d20+4"
  | .adjustTime _ npc_name, input =>
    strStartsWith input "delete " && strEndsWith input npc_name &&
      strLen input == strLen "delete " + strLen npc_name
  | .time, input => input == "+30m"
  | .conclusion, input => input == "time" || input == "date" || input == "now"

/-- Embedding of `TutorialCommand::run`.  The underlying command execution
and the recent-buffer gender lookup are supplied by the oracle `O`; the
`next` field is the state handed to `CommandAlias::strict_wildcard` for
re-registration (`none` when the tutorial exits). -/
def runTutorial (O : TutorialOracle) (self : TutorialCommand) (input : String) :
    TutorialStep :=
  match self with
  | .introduction =>
    let next := TutorialCommand.inn
    { result := next.output none, next := some next,
      ranUnderlying := false, insertedNextLiteral := true }
  | .inn =>
    if input == "next" then
      let next := TutorialCommand.save
      { result := next.output none, next := some next,
        ranUnderlying := false, insertedNextLiteral := false }
    else stillActiveStep .inn
  | .save =>
    if input == "inn" then
      match O.runCmd input with
      | .ok out =>
        let next := TutorialCommand.npc (scrapeInnName out)
        { result := next.output (some (.ok out)), next := some next,
          ranUnderlying := true, insertedNextLiteral := false }
      | .error e =>
        { result := .error e, next := some .save,
          ranUnderlying := true, insertedNextLiteral := false }
    else stillActiveStep .save
  | .npc inn_name =>
    if input == "save" ||
        (strStartsWith input "save " && strEndsWith input inn_name &&
          strLen input == strLen "save " + strLen inn_name) then
      let next := TutorialCommand.npcOther inn_name
      { result := next.output (some (O.runCmd input)), next := some next,
        ranUnderlying := true, insertedNextLiteral := false }
    else stillActiveStep (.npc inn_name)
  | .npcOther inn_name =>
    if input == "npc" then
      match O.runCmd input with
      | .ok out =>
        match scrapeNpcName out, scrapeOtherNpcName out with
        | some npc_name, some other_npc_name =>
          match O.genderOf npc_name with
          | some npc_gender =>
            let next := TutorialCommand.saveByName inn_name npc_gender npc_name
              other_npc_name
            { result := next.output (some (.ok out)), next := some next,
              ranUnderlying := true, insertedNextLiteral := false }
          | none =>
            { result := .ok out, next := some (.npcOther inn_name),
              ranUnderlying := true, insertedNextLiteral := false }
        | _, _ =>
          { result := .ok out, next := some (.npcOther inn_name),
            ranUnderlying := true, insertedNextLiteral := false }
      | .error e =>
        { result := .error e, next := some (.npcOther inn_name),
          ranUnderlying := true, insertedNextLiteral := false }
    else stillActiveStep (.npcOther inn_name)
  | .saveByName inn_name npc_gender npc_name other_npc_name =>
    if input == "1" || input == npc_name ||
        (strStartsWith input "load " && strEndsWith input npc_name &&
          strLen input == strLen "load " + strLen npc_name) then
      match O.runCmd input with
      | .ok out =>
        let next := TutorialCommand.journal inn_name npc_gender npc_name
        { result := next.output (some (.ok out)), next := some next,
          ranUnderlying := true, insertedNextLiteral := false }
      | .error e =>
        { result := .error e,
          next := some (.saveByName inn_name npc_gender npc_name other_npc_name),
          ranUnderlying := true, insertedNextLiteral := false }
    else stillActiveStep (.saveByName inn_name npc_gender npc_name other_npc_name)
  | .journal inn_name npc_gender npc_name =>
    if input == "save" ||
        (strStartsWith input "save " && strEndsWith input npc_name &&
          strLen input == strLen "save " + strLen npc_name) then
      let next := TutorialCommand.loadByName inn_name npc_gender npc_name
      { result := next.output (some (O.runCmd input)), next := some next,
        ranUnderlying := true, insertedNextLiteral := false }
    else stillActiveStep (.journal inn_name npc_gender npc_name)
  | .loadByName inn_name npc_gender npc_name =>
    if input == "journal" then
      let next := TutorialCommand.spell inn_name npc_gender npc_name
      { result := next.output (some (O.runCmd input)), next := some next,
        ranUnderlying := true, insertedNextLiteral := false }
    else stillActiveStep (.loadByName inn_name npc_gender npc_name)
  | .spell inn_name npc_gender npc_name =>
    if input == npc_name ||
        (strStartsWith input "load " && strEndsWith input npc_name &&
          strLen input == strLen "load " + strLen npc_name) then
      let next := TutorialCommand.weapons inn_name npc_gender npc_name
      { result := next.output (some (O.runCmd input)), next := some next,
        ranUnderlying := true, insertedNextLiteral := false }
    else stillActiveStep (.spell inn_name npc_gender npc_name)
  | .weapons inn_name npc_gender npc_name =>
    if input == "Fireball" then
      let next := TutorialCommand.roll inn_name npc_gender npc_name
      { result := next.output (some (O.runCmd input)), next := some next,
        ranUnderlying := true, insertedNextLiteral := false }
    else stillActiveStep (.weapons inn_name npc_gender npc_name)
  | .roll inn_name npc_gender npc_name =>
    if input == "weapons" then
      let next := TutorialCommand.delete npc_gender npc_name
      { result := next.output (some (O.runCmd input)), next := some next,
        ranUnderlying := true, insertedNextLiteral := false }
    else stillActiveStep (.roll inn_name npc_gender npc_name)
  | .delete npc_gender npc_name =>
    if input == "d20+4" then
      let next := TutorialCommand.adjustTime npc_gender npc_name
      { result := next.output (some (O.runCmd input)), next := some next,
        ranUnderlying := true, insertedNextLiteral := false }
    else stillActiveStep (.delete npc_gender npc_name)
  | .adjustTime npc_gender npc_name =>
    if strStartsWith input "delete " && strEndsWith input npc_name &&
        strLen input == strLen "delete " + strLen npc_name then
      let next := TutorialCommand.time
      { result := next.output (some (O.runCmd input)), next := some next,
        ranUnderlying := true, insertedNextLiteral := false }
    else stillActiveStep (.adjustTime npc_gender npc_name)
  | .time =>
    if input == "+30m" then
      let next := TutorialCommand.conclusion
      { result := next.output (some (O.runCmd input)), next := some next,
        ranUnderlying := true, insertedNextLiteral := false }
    else stillActiveStep .time
  | .conclusion =>
    if input == "time" || input == "date" || input == "now" then
      { result :=
          match O.runCmd input with
          | .ok out => .ok (out ++ "\n\n#" ++ conclusionMd)
          | .error e => .error e,
        next := none,
        ranUnderlying := true, insertedNextLiteral := false }
    else stillActiveStep .conclusion

/-- `TutorialCommand::parse_input`: the literal input "tutorial" parses to
the Introduction state; nothing else matches, and there are never fuzzy
matches. -/
def tutorialParseInput (input : String) :
    Option TutorialCommand × List TutorialCommand :=
  (if input == "tutorial" then some .introduction else none, [])

/-- Modelled from the spec: the full repository `CommandAlias` also has a
strict-wildcard variant, constructed by `CommandAlias::strict_wildcard` in
`tutorial.rs`; the provided `alias.rs` pre-dates it and carries only
`Literal`.  Per the spec (§4.3) the strict wildcard matches any input
whatsoever rather than a fixed term. -/
inductive ExtCommandAlias (C : Type) where
  | literal (term : String) (summary : String) (command : C)
  | strictWildcard (command : C)
  deriving Repr, DecidableEq

/-- Modelled from the spec: whether an alias recognizes an input — a
literal matches exactly its term, a strict wildcard matches anything. -/
def extAliasMatches : ExtCommandAlias C → String → Bool
  | .literal term _ _, input => input == term
  | .strictWildcard _, _ => true

/-- The strict-wildcard alias `TutorialCommand::run` installs when it
re-registers a continuation: it wraps the next tutorial state. -/
def installedTutorialAlias (O : TutorialOracle) (s : TutorialCommand)
    (input : String) : Option (ExtCommandAlias TutorialCommand) :=
  (runTutorial O s input).next.map ExtCommandAlias.strictWildcard

/-- The underlying command outputs for the C7 walkthrough: a generated inn
heading and an npc listing shaped as the scrapes expect. -/
def walkRunCmd : String → Except String String
  | "inn" => .ok "# The Prancing Pony\nA cozy inn."
  | "npc" => .ok "# Bob\n~1~ `Alice` (human)"
  | _ => .ok "done"

/-- The oracle for the C7 walkthrough: successful underlying commands and
a recent buffer knowing Alice's gender. -/
def walkOracle : TutorialOracle :=
  { runCmd := walkRunCmd
    genderOf := fun n => if n == "Alice" then some .feminine else none }

/-- A trivial oracle (failing data layer) used by frame-property
witnesses. -/
def failOracle : TutorialOracle :=
  { runCmd := fun _ => .error "store down"
    genderOf := fun _ => none }

end Initiative

namespace Initiative

/-! ## Theorems on `Field<T>` -/

theorem applyFieldOp_locked (f : Field α) (h : f.is_locked = true) (op : FieldOp α) :
    applyFieldOp f op = f := by
  cases op <;>
    simp [applyFieldOp, Field.replace, Field.replace_with, Field.clear, Field.is_unlocked, h]

/-- C1: a locked `Field` holding value `V` keeps exactly that value across
any sequence of `replace` / `replace_with` / `clear` calls, and an unlocked
`Field` holds value `W` after `replace(W)`. -/
theorem c1_field_lock_invariant (α : Type) (f : Field α) (v : α)
    (hlock : f.is_locked = true) (hval : f.value = some v) (ops : List (FieldOp α)) :
    (applyFieldOps f ops).value = some v ∧
      (∀ g : Field α, g.is_locked = false → ∀ w : α, (g.replace w).value = some w) := by
  constructor
  · have hfix : applyFieldOps f ops = f := by
      induction ops with
      | nil => rfl
      | cons op ops ih =>
        have h1 : applyFieldOp f op = f := applyFieldOp_locked f hlock op
        simpa [applyFieldOps, h1] using ih
    rw [hfix, hval]
  · intro g hg w
    simp [Field.replace, Field.replace_with, Field.is_unlocked, hg]

/-- Witness for C1 at a concrete locked field and operation list. -/
theorem c1_field_lock_invariant_witness :
    (applyFieldOps (Field.new 5) [.replace 1, .clear, .replaceWith (fun _ => 2)]).value
        = some 5 ∧
      (∀ g : Field Nat, g.is_locked = false → ∀ w : Nat, (g.replace w).value = some w) :=
  c1_field_lock_invariant Nat (Field.new 5) 5 rfl rfl
    [.replace 1, .clear, .replaceWith (fun _ => 2)]

/-! ## Theorems on `Repository::push_recent` -/

theorem dropToCap_of_le (l : List Thing) (h : l.length ≤ 99) : dropToCap l = l := by
  cases l with
  | nil => rfl
  | cons t ts =>
    rw [dropToCap]
    have hn : ¬ (t :: ts).length ≥ RECENT_MAX_LEN := by
      simp only [RECENT_MAX_LEN, List.length_cons, ge_iff_le, not_le]
      simp only [List.length_cons] at h
      omega
    rw [if_neg hn]

theorem dropToCap_length_le (l : List Thing) : (dropToCap l).length ≤ 99 := by
  induction l with
  | nil => simp [dropToCap]
  | cons t ts ih =>
    rw [dropToCap]
    by_cases h : (t :: ts).length ≥ RECENT_MAX_LEN
    · rw [if_pos h]; exact ih
    · rw [if_neg h]
      simp only [RECENT_MAX_LEN, List.length_cons, ge_iff_le, not_le] at h
      simp only [List.length_cons]
      omega

theorem dropToCap_of_length_eq_100 (l : List Thing) (h : l.length = 100) :
    dropToCap l = l.tail := by
  cases l with
  | nil => simp at h
  | cons t ts =>
    rw [dropToCap]
    have hts : ts.length = 99 := by simpa using h
    have : (t :: ts).length ≥ RECENT_MAX_LEN := by simp [RECENT_MAX_LEN, h]
    rw [if_pos this, dropToCap_of_le ts (by omega)]
    rfl

theorem pushRecentList_length_le (recent : List Thing) (t : Thing) :
    (pushRecentList recent t).length ≤ 100 := by
  have := dropToCap_length_le recent
  simp only [pushRecentList, List.length_append, List.length_singleton]
  omega

theorem foldl_pushRecentList_of_le (ts : List Thing) :
    ∀ acc : List Thing, acc.length + ts.length ≤ 100 →
      ts.foldl pushRecentList acc = acc ++ ts := by
  induction ts with
  | nil => intro acc _; simp
  | cons t ts ih =>
    intro acc hlen
    have hacc : acc.length ≤ 99 := by simp at hlen; omega
    have hstep : pushRecentList acc t = acc ++ [t] := by
      rw [pushRecentList, dropToCap_of_le acc hacc]
    rw [List.foldl_cons, hstep, ih (acc ++ [t]) (by simp at hlen ⊢; omega)]
    simp

theorem foldl_pushRecentList_length_le (history : List Thing) :
    (history.foldl pushRecentList []).length ≤ 100 := by
  induction history using List.reverseRecOn with
  | nil => simp
  | append_singleton init last _ =>
    rw [List.foldl_append, List.foldl_cons, List.foldl_nil]
    exact pushRecentList_length_le _ last

theorem tail_append_singleton (l : List α) (x : α) (h : l ≠ []) :
    l.tail ++ [x] = (l ++ [x]).tail := by
  cases l with
  | nil => exact absurd rfl h
  | cons a l => simp

theorem foldl_pushRecentList_101 (history : List Thing) (h : history.length = 101) :
    history.foldl pushRecentList [] = history.tail := by
  have hne : history ≠ [] := by intro he; rw [he] at h; simp at h
  have hdecomp : history.dropLast ++ [history.getLast hne] = history :=
    List.dropLast_append_getLast hne
  have hinit : history.dropLast.length = 100 := by
    have := List.length_dropLast history
    omega
  have hinit_ne : history.dropLast ≠ [] := by
    intro he; rw [he] at hinit; simp at hinit
  calc history.foldl pushRecentList []
      = (history.dropLast ++ [history.getLast hne]).foldl pushRecentList [] := by
        rw [hdecomp]
    _ = pushRecentList (history.dropLast.foldl pushRecentList [])
          (history.getLast hne) := by
        rw [List.foldl_append, List.foldl_cons, List.foldl_nil]
    _ = pushRecentList history.dropLast (history.getLast hne) := by
        rw [foldl_pushRecentList_of_le history.dropLast [] (by simp [hinit])]
        simp
    _ = history.dropLast.tail ++ [history.getLast hne] := by
        rw [pushRecentList, dropToCap_of_length_eq_100 _ hinit]
    _ = (history.dropLast ++ [history.getLast hne]).tail :=
        tail_append_singleton _ _ hinit_ne
    _ = history.tail := by rw [hdecomp]

/-- C4: `push_recent` never grows `recent` beyond 100 entries, whatever
the starting buffer and push sequence; pushing a sequence of 101 things
into an empty buffer leaves exactly the last 100 of them (the first-pushed
entry is the evicted one, FIFO) with the newly pushed entry at the back. -/
theorem c4_push_recent_fifo_bound :
    (∀ (recent : List Thing) (t : Thing), (pushRecentList recent t).length ≤ 100) ∧
    (∀ history : List Thing, (history.foldl pushRecentList []).length ≤ 100) ∧
    (∀ history : List Thing, history.length = 101 →
      history.foldl pushRecentList [] = history.tail ∧
      (history.foldl pushRecentList []).getLast? = history.getLast? ∧
      ∀ t0, history.head? = some t0 → t0 ∉ history.tail →
        t0 ∉ history.foldl pushRecentList []) := by
  refine ⟨pushRecentList_length_le, foldl_pushRecentList_length_le, ?_⟩
  intro history h
  have heq := foldl_pushRecentList_101 history h
  refine ⟨heq, ?_, ?_⟩
  · rw [heq]
    rcases history with _ | ⟨a, _ | ⟨b, rest⟩⟩
    · simp only [List.length_nil] at h; omega
    · simp only [List.length_cons, List.length_nil] at h; omega
    · simp [List.getLast?_cons_cons]
  · intro t0 _ hnot
    rw [heq]
    exact hnot

/-- Witness for C4: a concrete push and a concrete 101-push history. -/
theorem c4_push_recent_fifo_bound_witness :
    (pushRecentList [] (mkThing 0)).length ≤ 100 ∧
    (mkThings 101).foldl pushRecentList [] = (mkThings 101).tail :=
  ⟨c4_push_recent_fifo_bound.1 [] (mkThing 0),
    (c4_push_recent_fifo_bound.2.2 (mkThings 101) (by simp [mkThings])).1⟩

/-! ## Theorems on `Repository::save_thing_by_name` -/

/-- C2 counterexample: with Alice first and Bob second in `recent` and a
failing data store, `save_thing_by_name("Alice")` returns an error but the
recent buffer is NOT restored unchanged — Alice is re-appended at the back
(after Bob) and now carries the freshly assigned uuid. -/
theorem c2_counterexample :
    exceptIsOk (saveThingByName false 7 repoAB "Alice").1 = false ∧
    (saveThingByName false 7 repoAB "Alice").2.recent ≠ [thingA, thingB] ∧
    (saveThingByName false 7 repoAB "Alice").2.recent
      = [thingB, { thingA with uuid := some 7 }] := by
  refine ⟨by decide, by decide, by decide⟩

/-- C2 (amended): when a matching entity is taken out of `recent`, a failed
persistence call leaves the cache unchanged and re-appends the entity at
the back of `recent` via `push_recent`, its fields unchanged except for the
freshly assigned uuid; a successful call removes it from `recent` and
inserts it into the cache under the fresh uuid. -/
theorem c2_save_failure_restore (storeOk : Bool) (freshUuid : Uuid) (r : Repository)
    (name : String) (t : Thing) (rest : List Thing)
    (h : takeRecent (nameMatches (strToLower name)) r.recent = (some t, rest)) :
    (storeOk = false →
        exceptIsOk (saveThingByName storeOk freshUuid r name).1 = false ∧
        (saveThingByName storeOk freshUuid r name).2.cache = r.cache ∧
        (saveThingByName storeOk freshUuid r name).2.recent
          = pushRecentList rest (t.setUuid freshUuid)) ∧
    (storeOk = true →
        exceptIsOk (saveThingByName storeOk freshUuid r name).1 = true ∧
        (saveThingByName storeOk freshUuid r name).2.recent = rest ∧
        (saveThingByName storeOk freshUuid r name).2.cache
          = cacheInsert freshUuid (t.setUuid freshUuid) r.cache) := by
  cases storeOk <;> simp [saveThingByName, h, exceptIsOk]

/-- Witness for C2 (amended): Alice taken from `[Alice, Bob]`, store down. -/
theorem c2_save_failure_restore_witness :
    (false = false →
        exceptIsOk (saveThingByName false 7 repoAB "Alice").1 = false ∧
        (saveThingByName false 7 repoAB "Alice").2.cache = repoAB.cache ∧
        (saveThingByName false 7 repoAB "Alice").2.recent
          = pushRecentList [thingB] (thingA.setUuid 7)) ∧
    (false = true →
        exceptIsOk (saveThingByName false 7 repoAB "Alice").1 = true ∧
        (saveThingByName false 7 repoAB "Alice").2.recent = [thingB] ∧
        (saveThingByName false 7 repoAB "Alice").2.cache
          = cacheInsert 7 (thingA.setUuid 7) repoAB.cache) :=
  c2_save_failure_restore false 7 repoAB "Alice" thingA [thingB] (by decide)

/-- C3 counterexample: with a Carol in the cache AND another Carol in
`recent`, `save_thing_by_name("Carol")` does not fail with the
name-conflict error — the recent match wins and the save succeeds. -/
theorem c3_counterexample :
    (repoBoth.cache.any (fun kv => nameMatches (strToLower "Carol") kv.2) = true) ∧
    exceptIsOk (saveThingByName true 9 repoBoth "Carol").1 = true := by
  refine ⟨by decide, by decide⟩

/-- C3 (amended): when no entity in `recent` matches the name, the call
fails with the name-conflict error if a cache entity matches, and with the
not-found error if none does; the repository is unchanged either way. -/
theorem c3_conflict_notfound (storeOk : Bool) (freshUuid : Uuid) (r : Repository)
    (name : String)
    (h : (takeRecent (nameMatches (strToLower name)) r.recent).1 = none) :
    (r.cache.any (fun kv => nameMatches (strToLower name) kv.2) = true →
        saveThingByName storeOk freshUuid r name
          = (Except.error ("`" ++ name ++ "` has already been saved to your `journal`"), r)) ∧
    (r.cache.any (fun kv => nameMatches (strToLower name) kv.2) = false →
        saveThingByName storeOk freshUuid r name
          = (Except.error ("No matches for \"" ++ name ++ "\""), r)) := by
  rcases he : takeRecent (nameMatches (strToLower name)) r.recent with ⟨o, l⟩
  rw [he] at h
  simp only at h
  subst h
  constructor <;> intro hc <;> simp [saveThingByName, he, hc]

/-- Witness for C3 (amended) at a cache-only repository and an empty one. -/
theorem c3_conflict_notfound_witness :
    ((repoD.cache.any (fun kv => nameMatches (strToLower "Dave") kv.2) = true →
        saveThingByName true 3 repoD "Dave"
          = (Except.error ("`" ++ "Dave" ++ "` has already been saved to your `journal`"),
              repoD)) ∧
      (repoD.cache.any (fun kv => nameMatches (strToLower "Dave") kv.2) = false →
        saveThingByName true 3 repoD "Dave"
          = (Except.error ("No matches for \"" ++ "Dave" ++ "\""), repoD))) ∧
    ((repoEmpty.cache.any (fun kv => nameMatches (strToLower "Eve") kv.2) = true →
        saveThingByName true 4 repoEmpty "Eve"
          = (Except.error ("`" ++ "Eve" ++ "` has already been saved to your `journal`"),
              repoEmpty)) ∧
      (repoEmpty.cache.any (fun kv => nameMatches (strToLower "Eve") kv.2) = false →
        saveThingByName true 4 repoEmpty "Eve"
          = (Except.error ("No matches for \"" ++ "Eve" ++ "\""), repoEmpty))) :=
  ⟨c3_conflict_notfound true 3 repoD "Dave" (by decide),
    c3_conflict_notfound true 4 repoEmpty "Eve" (by decide)⟩

/-! ## Theorems on `CommandAlias` -/

theorem aliasContains_iff (s : List (CommandAlias C)) (a : CommandAlias C) :
    aliasContains s a = true ↔ ∃ y ∈ s, y.termOf = a.termOf := by
  simp [aliasContains, aliasEq, List.any_eq_true, beq_iff_eq]

theorem aliasMergeFold_mem (A : List (CommandAlias C)) :
    ∀ acc : List (CommandAlias C), nodupTerms A → ∀ x : CommandAlias C,
      (x ∈ A.foldl (fun acc a => if aliasContains acc a then acc else acc ++ [a]) acc ↔
        x ∈ acc ∨ (x ∈ A ∧ ∀ y ∈ acc, y.termOf ≠ x.termOf)) := by
  induction A with
  | nil => intro acc _ x; simp
  | cons a A ih =>
    intro acc hnod x
    have hnodA : nodupTerms A := by
      have := hnod
      simp only [nodupTerms, List.map_cons, List.nodup_cons] at this
      exact this.2
    have haterm : a.termOf ∉ A.map CommandAlias.termOf := by
      have := hnod
      simp only [nodupTerms, List.map_cons, List.nodup_cons] at this
      exact this.1
    rw [List.foldl_cons]
    by_cases hc : aliasContains acc a
    · rw [if_pos hc]
      rw [ih acc hnodA x]
      obtain ⟨ya, hya, hyaterm⟩ := (aliasContains_iff acc a).mp hc
      constructor
      · rintro (hx | ⟨hxA, hP⟩)
        · exact Or.inl hx
        · exact Or.inr ⟨List.mem_cons_of_mem a hxA, hP⟩
      · rintro (hx | ⟨hxA, hP⟩)
        · exact Or.inl hx
        · rcases List.mem_cons.mp hxA with rfl | hxA'
          · exact absurd hyaterm (hP ya hya)
          · exact Or.inr ⟨hxA', hP⟩
    · rw [if_neg hc]
      rw [ih (acc ++ [a]) hnodA x]
      have hnoterm : ∀ y ∈ acc, y.termOf ≠ a.termOf := by
        intro y hy hcontra
        exact hc ((aliasContains_iff acc a).mpr ⟨y, hy, hcontra⟩)
      constructor
      · rintro (hx | ⟨hxA, hP⟩)
        · rcases List.mem_append.mp hx with hx' | hx'
          · exact Or.inl hx'
          · have hxa := List.mem_singleton.mp hx'
            subst hxa
            exact Or.inr ⟨List.mem_cons_self _ _, hnoterm⟩
        · refine Or.inr ⟨List.mem_cons_of_mem a hxA, fun y hy => ?_⟩
          exact hP y (List.mem_append_left _ hy)
      · rintro (hx | ⟨hxA, hP⟩)
        · exact Or.inl (List.mem_append_left _ hx)
        · rcases List.mem_cons.mp hxA with rfl | hxA'
          · exact Or.inl (List.mem_append_right _ (List.mem_singleton_self x))
          · refine Or.inr ⟨hxA', fun y hy => ?_⟩
            rcases List.mem_append.mp hy with hy' | hy'
            · exact hP y hy'
            · rcases List.mem_singleton.mp hy' with rfl
              intro hcontra
              exact haterm (hcontra ▸ List.mem_map_of_mem CommandAlias.termOf hxA')

/-- C5: running a literal alias swaps the alias set out (the wrapped
command starts from the empty set); if the command registered no aliases
the original set is restored verbatim, otherwise the result holds exactly
the command's fresh aliases plus those original members whose term
collides with none of them — fresh aliases win on term collision. -/
theorem c5_alias_swap_merge (C : Type)
    (cmdRun : List (CommandAlias C) → List (CommandAlias C))
    (current : List (CommandAlias C)) (hnod : nodupTerms current) :
    (cmdRun [] = [] → runLiteralAliasSet cmdRun current = current) ∧
    (cmdRun [] ≠ [] → ∀ x : CommandAlias C,
      (x ∈ runLiteralAliasSet cmdRun current ↔
        x ∈ cmdRun [] ∨ (x ∈ current ∧ ∀ y ∈ cmdRun [], y.termOf ≠ x.termOf))) := by
  constructor
  · intro h
    simp [runLiteralAliasSet, h]
  · intro h x
    have hne : (cmdRun []).isEmpty = false := by
      cases hcmd : cmdRun [] with
      | nil => exact absurd hcmd h
      | cons y ys => simp
    rw [runLiteralAliasSet]
    simp only [hne, Bool.false_eq_true, if_false]
    exact aliasMergeFold_mem current (cmdRun []) hnod x

/-- Witness for C5: original terms a,b; fresh terms b,c; the old `a` alias
survives the merge, checked through the theorem's characterization. -/
theorem c5_alias_swap_merge_witness :
    CommandAlias.literal "a" "old a" 0 ∈ runLiteralAliasSet wCmdRun wCurrent ↔
      CommandAlias.literal "a" "old a" 0 ∈ wCmdRun [] ∨
        (CommandAlias.literal "a" "old a" 0 ∈ wCurrent ∧
          ∀ y ∈ wCmdRun [], y.termOf ≠ (CommandAlias.literal "a" "old a" (0 : Nat)).termOf) :=
  (c5_alias_swap_merge Nat wCmdRun wCurrent (by unfold nodupTerms; decide)).2 (by decide)
    (CommandAlias.literal "a" "old a" 0)

/-- C9: alias equality holds exactly on equal terms; equal terms force
equal hashes; and two same-term aliases are indistinguishable to the alias
set — `contains` answers alike for them and inserting the second after the
first changes nothing. -/
theorem c9_alias_term_identity (C : Type) (a b : CommandAlias C) :
    (aliasEq a b = true ↔ a.termOf = b.termOf) ∧
    (a.termOf = b.termOf → aliasHash a = aliasHash b) ∧
    (a.termOf = b.termOf →
      (∀ s : List (CommandAlias C), aliasContains s a = aliasContains s b) ∧
      ∀ s : List (CommandAlias C), aliasInsert (aliasInsert s a) b = aliasInsert s a) := by
  refine ⟨?_, ?_, ?_⟩
  · simp [aliasEq, beq_iff_eq]
  · intro h
    simp [aliasHash, h]
  · intro h
    constructor
    · intro s
      simp [aliasContains, aliasEq, h]
    · intro s
      by_cases hc : aliasContains s a
      · have hcb : aliasContains s b = true := by
          simpa [aliasContains, aliasEq, h] using hc
        simp [aliasInsert, hc, hcb]
      · have hcb : aliasContains (s ++ [a]) b = true := by
          refine (aliasContains_iff _ b).mpr ⟨a, ?_, h⟩
          exact List.mem_append_right _ (List.mem_singleton_self a)
        simp [aliasInsert, hc, hcb]

/-- Witness for C9: two aliases sharing the term "about" with different
summaries and commands, against a concrete set. -/
theorem c9_alias_term_identity_witness :
    (aliasEq wAliasA wAliasB = true ↔ wAliasA.termOf = wAliasB.termOf) ∧
    aliasHash wAliasA = aliasHash wAliasB ∧
    aliasContains wSetC9 wAliasA = aliasContains wSetC9 wAliasB ∧
    aliasInsert (aliasInsert wSetC9 wAliasA) wAliasB = aliasInsert wSetC9 wAliasA :=
  ⟨(c9_alias_term_identity Nat wAliasA wAliasB).1,
    (c9_alias_term_identity Nat wAliasA wAliasB).2.1 rfl,
    ((c9_alias_term_identity Nat wAliasA wAliasB).2.2 rfl).1 wSetC9,
    ((c9_alias_term_identity Nat wAliasA wAliasB).2.2 rfl).2 wSetC9⟩

/-! ## Theorems on `Repository::recent()` and the ring layout -/

/-- C10: `recent()` returns only `as_slices().0`.  Pushing 129 things into
the (grown) deque wraps the ring: the final buffer still holds 100 things,
among them the last-pushed one, yet that thing is absent from the slice
`recent()` returns. -/
theorem c10_recent_slice_incomplete :
    ((mkThings 129).foldl ringPushRecent ringEmpty128).items.length = 100 ∧
    mkThing 128 ∈ ((mkThings 129).foldl ringPushRecent ringEmpty128).items ∧
    mkThing 128 ∉ ringRecentSlice ((mkThings 129).foldl ringPushRecent ringEmpty128) := by
  refine ⟨by decide, by decide, by decide⟩

/-! ## Theorems on `TutorialCommand` -/

theorem runTutorial_reject (O : TutorialOracle) (s : TutorialCommand)
    (input : String) (h : acceptsInput s input = false) :
    runTutorial O s input = stillActiveStep s := by
  cases s <;> simp_all [runTutorial, acceptsInput]

/-- C6: on an input the current state's acceptance predicate rejects,
`TutorialCommand::run` does not execute the underlying domain command,
returns the fixed still-active text, and re-registers the same state as
the continuation. -/
theorem c6_tutorial_reject_frame (O : TutorialOracle) (s : TutorialCommand)
    (input : String) (h : acceptsInput s input = false) :
    (runTutorial O s input).result = .ok stillActiveMd ∧
    (runTutorial O s input).next = some s ∧
    (runTutorial O s input).ranUnderlying = false := by
  rw [runTutorial_reject O s input h]
  exact ⟨rfl, rfl, rfl⟩

/-- Witness for C6: an unexpected input at the Npc checkpoint. -/
theorem c6_tutorial_reject_frame_witness :
    (runTutorial failOracle (.npc "The Prancing Pony") "bogus").result
        = .ok stillActiveMd ∧
    (runTutorial failOracle (.npc "The Prancing Pony") "bogus").next
        = some (.npc "The Prancing Pony") ∧
    (runTutorial failOracle (.npc "The Prancing Pony") "bogus").ranUnderlying = false :=
  c6_tutorial_reject_frame failOracle (.npc "The Prancing Pony") "bogus" (by decide)

/-- C7: entering with "tutorial" and feeding the expected input at each
checkpoint advances linearly through all fourteen states to Conclusion in
exactly 14 accepted transitions, and each of "time", "date", "now" exits
Conclusion without re-registering a continuation. -/
theorem c7_tutorial_linear_walkthrough :
    tutorialParseInput "tutorial" = (some .introduction, []) ∧
    (runTutorial walkOracle .introduction "tutorial").next = some .inn ∧
    (runTutorial walkOracle .inn "next").next = some .save ∧
    (runTutorial walkOracle .save "inn").next = some (.npc "The Prancing Pony") ∧
    (runTutorial walkOracle (.npc "The Prancing Pony") "save").next
        = some (.npcOther "The Prancing Pony") ∧
    (runTutorial walkOracle (.npcOther "The Prancing Pony") "npc").next
        = some (.saveByName "The Prancing Pony" .feminine "Alice" "Bob") ∧
    (runTutorial walkOracle
        (.saveByName "The Prancing Pony" .feminine "Alice" "Bob") "1").next
        = some (.journal "The Prancing Pony" .feminine "Alice") ∧
    (runTutorial walkOracle (.journal "The Prancing Pony" .feminine "Alice") "save").next
        = some (.loadByName "The Prancing Pony" .feminine "Alice") ∧
    (runTutorial walkOracle
        (.loadByName "The Prancing Pony" .feminine "Alice") "journal").next
        = some (.spell "The Prancing Pony" .feminine "Alice") ∧
    (runTutorial walkOracle (.spell "The Prancing Pony" .feminine "Alice") "Alice").next
        = some (.weapons "The Prancing Pony" .feminine "Alice") ∧
    (runTutorial walkOracle
        (.weapons "The Prancing Pony" .feminine "Alice") "Fireball").next
        = some (.roll "The Prancing Pony" .feminine "Alice") ∧
    (runTutorial walkOracle (.roll "The Prancing Pony" .feminine "Alice") "weapons").next
        = some (.delete .feminine "Alice") ∧
    (runTutorial walkOracle (.delete .feminine "Alice") "d20+4").next
        = some (.adjustTime .feminine "Alice") ∧
    (runTutorial walkOracle (.adjustTime .feminine "Alice") "delete Alice").next
        = some .time ∧
    (runTutorial walkOracle .time "+30m").next = some .conclusion ∧
    (runTutorial walkOracle .conclusion "time").next = none ∧
    (runTutorial walkOracle .conclusion "date").next = none ∧
    (runTutorial walkOracle .conclusion "now").next = none := by
  repeat' constructor

theorem runTutorial_next_isSome (O : TutorialOracle) (s : TutorialCommand)
    (input : String) (hs : s ≠ .conclusion) :
    ((runTutorial O s input).next).isSome = true := by
  cases s <;> simp only [runTutorial] <;>
    first
      | exact absurd rfl hs
      | ((repeat' split) <;> simp [stillActiveStep])

/-- C8: the strict-wildcard alias variant matches any input whatsoever,
and after every accepted transition of a non-terminal tutorial state the
installed alias is a strict wildcard wrapping the continuation state, so
the next input — whatever it is — is routed to that state. -/
theorem c8_strict_wildcard_installed (O : TutorialOracle) (s : TutorialCommand)
    (input : String) (hacc : acceptsInput s input = true) (hs : s ≠ .conclusion) :
    (∀ (C : Type) (c : C) (anyInput : String),
        extAliasMatches (ExtCommandAlias.strictWildcard c) anyInput = true) ∧
    ∃ s' : TutorialCommand,
      (runTutorial O s input).next = some s' ∧
      installedTutorialAlias O s input = some (ExtCommandAlias.strictWildcard s') ∧
      ∀ anyInput : String,
        extAliasMatches (ExtCommandAlias.strictWildcard s') anyInput = true := by
  refine ⟨fun C c anyInput => rfl, ?_⟩
  have h := runTutorial_next_isSome O s input hs
  obtain ⟨s', hs'⟩ := Option.isSome_iff_exists.mp h
  exact ⟨s', hs', by simp [installedTutorialAlias, hs'], fun _ => rfl⟩

/-- Witness for C8: the accepted "next" input at the Inn checkpoint. -/
theorem c8_strict_wildcard_installed_witness :
    (∀ (C : Type) (c : C) (anyInput : String),
        extAliasMatches (ExtCommandAlias.strictWildcard c) anyInput = true) ∧
    ∃ s' : TutorialCommand,
      (runTutorial walkOracle .inn "next").next = some s' ∧
      installedTutorialAlias walkOracle .inn "next"
          = some (ExtCommandAlias.strictWildcard s') ∧
      ∀ anyInput : String,
        extAliasMatches (ExtCommandAlias.strictWildcard s') anyInput = true :=
  c8_strict_wildcard_installed walkOracle .inn "next" (by decide) (by decide)

end Initiative
